import Mathlib

/-!
Verification development for the indeed-scraper repository.

The definitions below are a shallow embedding of the acquisition /
classification / dedupe-merge pipeline implemented in `src/index.js`
(function `scrapeIndeed`), together with the challenge-gate event logic
(`src/index.js` lines 188-217) and the solver error handler of the
sibling script (`src/unnamed/part_003` lines 205-219).  External
collaborators (the rendered detail page and the DeepSeek classifier)
are modelled as explicit oracle parameters: the detail page of a job is
a function `Job → DetailInfo`, and the classifier is a function from the
scraped skills and description to a `Profile` (its output is always one
of the four labels because `classifyDescriptionWithDeepSeek` parses the
model reply into exactly `JS`, `WORDPRESS`, `PHP` or `OTHER`).
-/

/-- The closed set of classification labels produced by the pipeline
(`'JS' | 'PHP' | 'WORDPRESS' | 'OTHER'` in `src/index.js`). -/
inductive Profile where
  | JS
  | PHP
  | WORDPRESS
  | OTHER
deriving DecidableEq, Repr

/-- One listing record extracted from a job card
(`src/index.js` lines 241-259): `{ jobId, title, company, location,
summary, link }`.  A missing `jk` parameter yields `jobId = ""`. -/
structure Job where
  jobId : String
  title : String
  company : String
  location : String
  summary : String
  link : String
deriving DecidableEq, Repr

/-- The data scraped from a job's detail page by
`scrapeSkillsAndCheckLicenses` plus the `#jobDescriptionText` extraction
(`src/index.js` lines 69-89 and 290-294): skill tags, whether a license
tile (`TS/SCI`, `Secret Clearance`, `Top Secret Clearance`) is present,
and the full description text. -/
structure DetailInfo where
  skills : List String
  hasLicense : Bool
  desc : String
deriving DecidableEq, Repr

/-- A classified record as stored in the merged sheet: the job card
fields together with the assigned `profile`
(`job.profile = profile; newJobs.push(job)` in `src/index.js`
lines 300-301). -/
structure Rec where
  job : Job
  profile : Profile
deriving DecidableEq, Repr

/-- `startsWithChars p s` is true when `p` is a prefix of `s`
(character-list helper for JavaScript `String.prototype.includes`). -/
def startsWithChars : List Char → List Char → Bool
  | [], _ => true
  | _ :: _, [] => false
  | p :: ps, c :: cs => p == c && startsWithChars ps cs

/-- `hasSubChars p s` is true when `p` occurs contiguously in `s`. -/
def hasSubChars (p : List Char) : List Char → Bool
  | [] => startsWithChars p []
  | c :: cs => startsWithChars p (c :: cs) || hasSubChars p cs

/-- JavaScript `s.includes(pat)`: substring containment. -/
def strIncludes (s pat : String) : Bool :=
  hasSubChars pat.data s.data

/-- JavaScript `s.toUpperCase()` (ASCII, as used by the pipeline's
keywords and company names). -/
def toUpperCase (s : String) : String :=
  String.mk (s.data.map Char.toUpper)

/-- The configured employer blocklist `ignore_companies`
(`src/index.js` lines 24-65). -/
def ignore_companies : List String :=
  [ "Fidelity Investments"
  , "FIS Global"
  , "EY"
  , "Disney"
  , "Lockheed Martin"
  , "Lockheed Martin Corporation"
  , "Jacobs Engineering Group Inc."
  , "NTT DATA"
  , "PayPal"
  , "Dialysis Clinic, Inc."
  , "Discover Financial Services"
  , "Coalition Technologies"
  , "American Partner Solutions"
  , "General Dynamics Information Technology"
  , "Booz Allen"
  , "Amex"
  , "BAE Systems"
  , "Capgemini"
  , "CEDENT"
  , "Infosys"
  , "Peraton"
  , "SAIC"
  , "CVS Health"
  , "Lowe\x27s"
  , "Wipro Limited"
  , "Piper Companies"
  , "Mochi Health"
  , "JPMorganChase"
  , "ECS Federal, LLC"
  , "Disney Entertainment"
  , "Cognizant"
  , "Capital One"
  , "ASRC Federal"
  , "Apple"
  , "Robert Half"
  , "Ebay"
  , "Amazon"
  , "Google/Alpha"
  , "Facebook/Meta"
  , "Microsoft" ]

/-- The tier-1 title heuristic (`src/index.js` lines 267-272):
uppercase the title, then test `REACT`/`JAVASCRIPT` (→ JS), then `PHP`,
then `WORDPRESS`; no match yields `none`. -/
def titleProfile (title : String) : Option Profile :=
  if strIncludes (toUpperCase title) "REACT" || strIncludes (toUpperCase title) "JAVASCRIPT" then
    some Profile.JS
  else if strIncludes (toUpperCase title) "PHP" then some Profile.PHP
  else if strIncludes (toUpperCase title) "WORDPRESS" then some Profile.WORDPRESS
  else none

/-- Per-job outcome of the classification loop body. -/
inductive Outcome where
  | skip
  | exclude
  | accept (p : Profile)
deriving DecidableEq, Repr

/-- Instrumented result of one iteration of the per-job loop: the
outcome plus whether a detail page was fetched and whether the external
classifier was called. -/
structure StepOut where
  outcome : Outcome
  detailFetched : Bool
  classifierCalled : Bool
deriving DecidableEq, Repr

/-- The body of the per-job loop (`src/index.js` lines 264-303):
`if (!job.jobId || existingIds.has(job.jobId)) continue;` then the
title check; on an inconclusive title, fetch the detail page, drop the
job when a license tile is present or the company is blocklisted
(case-insensitively), and otherwise classify via DeepSeek. -/
def stepJob (detail : Job → DetailInfo) (classifier : List String → String → Profile)
    (ids : List String) (j : Job) : StepOut :=
  if j.jobId == "" || ids.contains j.jobId then
    ⟨Outcome.skip, false, false⟩
  else
    match titleProfile j.title with
    | some p => ⟨Outcome.accept p, false, false⟩
    | none =>
      if (detail j).hasLicense
          || (ignore_companies.map toUpperCase).contains (toUpperCase j.company) then
        ⟨Outcome.exclude, true, false⟩
      else
        ⟨Outcome.accept (classifier (detail j).skills (detail j).desc), true, true⟩

/-- The per-job loop over the extracted cards (`src/index.js`
lines 264-304): accepted jobs are appended to `newJobs` in discovery
order and their id is added to the running `existingIds` set. -/
def processJobs (detail : Job → DetailInfo) (classifier : List String → String → Profile) :
    List String → List Job → List Rec
  | _, [] => []
  | ids, j :: rest =>
    match (stepJob detail classifier ids j).outcome with
    | Outcome.accept p => Rec.mk j p :: processJobs detail classifier (j.jobId :: ids) rest
    | Outcome.skip => processJobs detail classifier ids rest
    | Outcome.exclude => processJobs detail classifier ids rest

/-- The identity column of a store
(`existing.forEach(r => existingIds.add(r.jobId))`, `src/index.js`
line 228). -/
def idsOf (store : List Rec) : List String :=
  store.map (fun r => r.job.jobId)

/-- One run's dedupe-merge (`src/index.js` lines 228, 264-304, 320):
seed `existingIds` from the loaded store, run the per-job loop over the
extracted cards, and append `newJobs` to the existing records
(`const merged = existing.concat(newJobs)`). -/
def runMerge (detail : Job → DetailInfo) (classifier : List String → String → Profile)
    (existing : List Rec) (cards : List Job) : List Rec :=
  existing ++ processJobs detail classifier (idsOf existing) cards


/-! ### Pagination state machine (`src/index.js` lines 306-317,
`src/unnamed/part_003` lines 349-372) -/

/-- One results page as the crawler observes it: the extracted cards,
whether the `pagination-page-next` control is present, whether that
control carries `aria-disabled="true"`, and whether clicking it lands on
an auth/onboarding surface (`secure.indeed.com/auth` or
`onboarding.indeed.com`). -/
structure PageDesc where
  cards : List Job
  nextPresent : Bool
  nextDisabled : Bool
  redirectsAuth : Bool
deriving DecidableEq, Repr

/-- Why the crawl loop terminated. -/
inductive StopReason where
  | noMorePages
  | lastPage
  | authRedirect
deriving DecidableEq, Repr

/-- The paginate-and-scrape loop viewed over the sequence of pages the
source serves: each iteration extracts the current page, then inspects
the next-button.  Absent button → stop (`no-more-pages`); present but
`aria-disabled` → stop (`last-page`); otherwise navigate, stopping if
redirected to an auth surface.  Returns how many pages were extracted
and the termination reason (`none` only if the input sequence runs out
with navigation still pending, which cannot happen on a real trace). -/
def crawlPages : List PageDesc → Nat × Option StopReason
  | [] => (0, none)
  | p :: rest =>
    if !p.nextPresent then (1, some StopReason.noMorePages)
    else if p.nextDisabled then (1, some StopReason.lastPage)
    else if p.redirectsAuth then (1, some StopReason.authRedirect)
    else
      match crawlPages rest with
      | (n, r) => (n + 1, r)

/-! ### ChallengeGate event model (`src/index.js` lines 188-217) -/

/-- The observable events that touch the gate state, in temporal order:
a challenge console message arrives (`sawCap = true`), an in-flight
solve completes (`capResolve()` after token injection), or the grace
check after the initial navigation runs (`if (!sawCap) capResolve()`). -/
inductive GateEvent where
  | sigArrive
  | solveDone
  | graceTick
deriving DecidableEq, Repr

/-- How the gate's promise was resolved. -/
inductive GateReason where
  | solved
  | implicitReady
deriving DecidableEq, Repr

/-- The gate's mutable state: the `sawCap` flag and the promise
resolution (`none` while `capPromise` is pending; a JS promise resolves
at most once, so later resolutions are no-ops). -/
structure GateState where
  sawCap : Bool
  resolved : Option GateReason
deriving DecidableEq, Repr

/-- `capResolve()`: settle the promise if it is still pending; a second
call is a no-op (first resolution wins). -/
def gateResolve (r : GateReason) (s : GateState) : GateState :=
  match s.resolved with
  | some _ => s
  | none => { s with resolved := some r }

/-- One gate event: a challenge message records `sawCap := true`; solve
completion calls `capResolve()`; the grace check resolves only when no
challenge message has been seen. -/
def gateStep (s : GateState) : GateEvent → GateState
  | GateEvent.sigArrive => { s with sawCap := true }
  | GateEvent.solveDone => gateResolve GateReason.solved s
  | GateEvent.graceTick => if s.sawCap then s else gateResolve GateReason.implicitReady s

/-- Run the gate from its initial state (`sawCap = false`, promise
pending) over a sequence of events. -/
def gateRun (events : List GateEvent) : GateState :=
  events.foldl gateStep ⟨false, none⟩

/-! ### Solver failure handling (`src/unnamed/part_003` lines 205-219) -/

/-- Result of `solver.cloudflareTurnstile(params)`: a token, or a
thrown error. -/
inductive SolveResult where
  | token (t : String)
  | err (e : String)
deriving DecidableEq, Repr

/-- What the console handler does with the solver result: inject the
token via `cfCallback` and resolve the gate, or `process.exit(1)`. -/
inductive GateAction where
  | inject (t : String)
  | exitProcess (code : Nat)
deriving DecidableEq, Repr

/-- The `try/catch` around the solver call in the challenge handler
(`src/unnamed/part_003` lines 210-217): success injects the token,
failure exits the process with code 1. -/
def solveHandler (r : SolveResult) : GateAction :=
  match r with
  | SolveResult.token t => GateAction.inject t
  | SolveResult.err _ => GateAction.exitProcess 1

/-- Observable result of one invocation: normal completion carrying the
persisted merged store (exit code 0), or a fatal abort via
`process.exit` with the given code (nothing persisted). -/
inductive RunResult where
  | completed (store : List Rec)
  | aborted (code : Nat)
deriving DecidableEq, Repr

/-- A run in which a challenge signal arrives: the crawl, the
classification loop and the merge/save all happen only after the gate
resolves, i.e. only when the solver call succeeded; on a solver error
the handler exits the process before any of them. -/
def runWithChallenge (detail : Job → DetailInfo)
    (classifier : List String → String → Profile) (solve : SolveResult)
    (existing : List Rec) (cards : List Job) : RunResult :=
  match solveHandler solve with
  | GateAction.exitProcess code => RunResult.aborted code
  | GateAction.inject _ => RunResult.completed (runMerge detail classifier existing cards)

/-! ### Concrete fixtures used by counterexamples and witnesses -/

/-- A detail-page oracle whose pages carry no skills, no license tile
and an empty description. -/
def plainDetail : Job → DetailInfo := fun _ => ⟨[], false, ""⟩

/-- A detail-page oracle whose pages all show a license tile. -/
def licenseDetail : Job → DetailInfo := fun _ => ⟨[], true, ""⟩

/-- A classifier oracle that always answers `OTHER`. -/
def otherClassifier : List String → String → Profile := fun _ _ => Profile.OTHER

/-- The spec's exclusion-precedence example: a job titled
`"PHP Engineer (Secret Clearance Required)"` whose detail page shows a
license tile. -/
def jobPHPLicense : Job :=
  ⟨"j1", "PHP Engineer (Secret Clearance Required)", "Acme Corp", "NY", "", "l1"⟩

/-- A job whose title matches no tier-1 keyword. -/
def jobPlain : Job := ⟨"j2", "Data Analyst", "Acme Corp", "NY", "", "l2"⟩

/-- The spec's title-heuristic example record. -/
def jobReact : Job := ⟨"j3", "Senior React Developer", "Acme Corp", "NY", "", "l3"⟩

/-- Blocklist example: employer `"amazon"` (lower case). -/
def jobAmazonLower : Job := ⟨"j4", "Data Analyst", "amazon", "NY", "", "l4"⟩

/-- Blocklist example: employer `"AMAZON"` (upper case). -/
def jobAmazonUpper : Job := ⟨"j5", "Data Analyst", "AMAZON", "NY", "", "l5"⟩

/-- A malformed listing: the `jk` parameter was absent, so
`jobId = ""`. -/
def jobNoId : Job := ⟨"", "PHP Engineer", "Acme Corp", "NY", "", "l6"⟩

/-- Jobs `a`, `b`, `c` on crawled page 1 and `c`, `d` on page 2 of the
spec's end-to-end scenario. -/
def jobA : Job := ⟨"a", "PHP Engineer", "Acme Corp", "NY", "", "la"⟩

def jobB : Job := ⟨"b", "Senior React Developer", "Acme Corp", "NY", "", "lb"⟩

def jobC : Job := ⟨"c", "Data Analyst", "Acme Corp", "NY", "", "lc"⟩

def jobD : Job := ⟨"d", "WordPress Engineer", "Acme Corp", "NY", "", "ld"⟩

/-- A results page whose next-button is present, enabled and safe to
follow. -/
def pageOn : PageDesc := ⟨[], true, false, false⟩

/-- A results page whose next-button is present but `aria-disabled`. -/
def pageLast : PageDesc := ⟨[], true, true, false⟩

/-! ### Equation lemmas for the per-job loop body -/

theorem stepJob_guard_true (detail : Job → DetailInfo)
    (classifier : List String → String → Profile) (ids : List String) (j : Job)
    (hg : (j.jobId == "" || ids.contains j.jobId) = true) :
    stepJob detail classifier ids j = ⟨Outcome.skip, false, false⟩ := by
  unfold stepJob
  rw [hg]
  rfl

theorem stepJob_title_some (detail : Job → DetailInfo)
    (classifier : List String → String → Profile) (ids : List String) (j : Job) (p : Profile)
    (hg : (j.jobId == "" || ids.contains j.jobId) = false)
    (hp : titleProfile j.title = some p) :
    stepJob detail classifier ids j = ⟨Outcome.accept p, false, false⟩ := by
  unfold stepJob
  rw [hg, hp]
  rfl

theorem stepJob_excluded (detail : Job → DetailInfo)
    (classifier : List String → String → Profile) (ids : List String) (j : Job)
    (hg : (j.jobId == "" || ids.contains j.jobId) = false)
    (hp : titleProfile j.title = none)
    (hc : ((detail j).hasLicense
        || (ignore_companies.map toUpperCase).contains (toUpperCase j.company)) = true) :
    stepJob detail classifier ids j = ⟨Outcome.exclude, true, false⟩ := by
  unfold stepJob
  rw [hg, hp, hc]
  rfl

theorem stepJob_classified (detail : Job → DetailInfo)
    (classifier : List String → String → Profile) (ids : List String) (j : Job)
    (hg : (j.jobId == "" || ids.contains j.jobId) = false)
    (hp : titleProfile j.title = none)
    (hc : ((detail j).hasLicense
        || (ignore_companies.map toUpperCase).contains (toUpperCase j.company)) = false) :
    stepJob detail classifier ids j =
      ⟨Outcome.accept (classifier (detail j).skills (detail j).desc), true, true⟩ := by
  unfold stepJob
  rw [hg, hp, hc]
  rfl

theorem stepJob_accept_guard (detail : Job → DetailInfo)
    (classifier : List String → String → Profile) (ids : List String) (j : Job) (p : Profile)
    (h : (stepJob detail classifier ids j).outcome = Outcome.accept p) :
    (j.jobId == "" || ids.contains j.jobId) = false := by
  cases hg : (j.jobId == "" || ids.contains j.jobId) with
  | true =>
    rw [stepJob_guard_true detail classifier ids j hg] at h
    exact Outcome.noConfusion h
  | false => rfl

theorem stepJob_exclude_elim (detail : Job → DetailInfo)
    (classifier : List String → String → Profile) (ids : List String) (j : Job)
    (h : (stepJob detail classifier ids j).outcome = Outcome.exclude) :
    titleProfile j.title = none ∧
      ((detail j).hasLicense
        || (ignore_companies.map toUpperCase).contains (toUpperCase j.company)) = true := by
  cases hg : (j.jobId == "" || ids.contains j.jobId) with
  | true =>
    rw [stepJob_guard_true detail classifier ids j hg] at h
    exact Outcome.noConfusion h
  | false =>
    cases hp : titleProfile j.title with
    | some p =>
      rw [stepJob_title_some detail classifier ids j p hg hp] at h
      exact Outcome.noConfusion h
    | none =>
      cases hc : ((detail j).hasLicense
          || (ignore_companies.map toUpperCase).contains (toUpperCase j.company)) with
      | false =>
        rw [stepJob_classified detail classifier ids j hg hp hc] at h
        exact Outcome.noConfusion h
      | true => exact ⟨rfl, rfl⟩

/-! ### Structural lemmas for the per-job loop -/

/-- A job that no step can accept never contributes a record. -/
theorem not_mem_processJobs (detail : Job → DetailInfo)
    (classifier : List String → String → Profile) (j : Job)
    (h : ∀ ids p, (stepJob detail classifier ids j).outcome ≠ Outcome.accept p) :
    ∀ (jobs : List Job) (ids : List String) (p : Profile),
      Rec.mk j p ∉ processJobs detail classifier ids jobs := by
  intro jobs
  induction jobs with
  | nil => intro ids p hm; simp [processJobs] at hm
  | cons hd tl ih =>
    intro ids p hm
    simp only [processJobs] at hm
    split at hm
    next q hq =>
      rcases List.mem_cons.mp hm with heq | hm'
      · have hjhd : j = hd := congrArg Rec.job heq
        exact h ids q (by rw [hjhd]; exact hq)
      · exact ih _ _ hm'
    next => exact ih _ _ hm
    next => exact ih _ _ hm

/-- Every record produced by the loop was not already in the identity
index the loop started from. -/
theorem mem_processJobs_not_mem (detail : Job → DetailInfo)
    (classifier : List String → String → Profile) :
    ∀ (jobs : List Job) (ids : List String) (r : Rec),
      r ∈ processJobs detail classifier ids jobs → r.job.jobId ∉ ids := by
  intro jobs
  induction jobs with
  | nil => intro ids r hm; simp [processJobs] at hm
  | cons hd tl ih =>
    intro ids r hm hin
    simp only [processJobs] at hm
    split at hm
    next q hq =>
      rcases List.mem_cons.mp hm with heq | hm'
      · have hguard := stepJob_accept_guard detail classifier ids hd q hq
        have hcont : ids.contains hd.jobId = false :=
          (Bool.or_eq_false_iff.mp hguard).2
        have hmem : List.elem hd.jobId ids = true :=
          List.elem_iff.mpr (by rw [heq] at hin; exact hin)
        have : List.elem hd.jobId ids = false := hcont
        rw [hmem] at this
        exact Bool.noConfusion this
      · exact ih (hd.jobId :: ids) r hm' (List.mem_cons_of_mem _ hin)
    next => exact ih ids r hm hin
    next => exact ih ids r hm hin

/-- The identity column of the loop's output has no duplicates. -/
theorem processJobs_ids_nodup (detail : Job → DetailInfo)
    (classifier : List String → String → Profile) :
    ∀ (jobs : List Job) (ids : List String),
      ((processJobs detail classifier ids jobs).map (fun r => r.job.jobId)).Nodup := by
  intro jobs
  induction jobs with
  | nil => intro ids; simp [processJobs]
  | cons hd tl ih =>
    intro ids
    simp only [processJobs]
    split
    next q hq =>
      simp only [List.map_cons]
      refine List.nodup_cons.mpr ⟨?_, ih _⟩
      intro hmem
      obtain ⟨r, hr, hre⟩ := List.mem_map.mp hmem
      exact mem_processJobs_not_mem detail classifier tl (hd.jobId :: ids) r hr
        (by rw [hre]; exact List.mem_cons_self _ _)
    next => exact ih _
    next => exact ih _

/-- The loop's accepted records, projected back to their job cards, form
a subsequence of the extracted cards (discovery order preserved). -/
theorem processJobs_map_job_sublist (detail : Job → DetailInfo)
    (classifier : List String → String → Profile) :
    ∀ (jobs : List Job) (ids : List String),
      ((processJobs detail classifier ids jobs).map Rec.job).Sublist jobs := by
  intro jobs
  induction jobs with
  | nil => intro ids; simp [processJobs]
  | cons hd tl ih =>
    intro ids
    simp only [processJobs]
    split
    next q hq =>
      simpa using List.Sublist.cons₂ hd (ih (hd.jobId :: ids))
    next => exact List.Sublist.cons hd (ih ids)
    next => exact List.Sublist.cons hd (ih ids)

/-- If the identity index `ids2` extends `ids` and already covers every
record the loop accepts from `ids`, then a second pass of the loop from
`ids2` accepts nothing. -/
theorem processJobs_absorbed (detail : Job → DetailInfo)
    (classifier : List String → String → Profile) :
    ∀ (X : List Job) (ids ids2 : List String),
      (∀ s, s ∈ ids → s ∈ ids2) →
      (∀ r, r ∈ processJobs detail classifier ids X → r.job.jobId ∈ ids2) →
      processJobs detail classifier ids2 X = [] := by
  intro X
  induction X with
  | nil => intro ids ids2 _ _; simp [processJobs]
  | cons hd tl ih =>
    intro ids ids2 hsub hN
    cases hg : (hd.jobId == "" || ids.contains hd.jobId) with
    | true =>
      -- first pass skipped hd
      have h1 : processJobs detail classifier ids (hd :: tl) =
          processJobs detail classifier ids tl := by
        simp only [processJobs, stepJob_guard_true detail classifier ids hd hg]
      rw [h1] at hN
      -- second pass also skips hd
      have hg2 : (hd.jobId == "" || ids2.contains hd.jobId) = true := by
        rcases Bool.or_eq_true_iff.mp hg with he | hc
        · exact Bool.or_eq_true_iff.mpr (Or.inl he)
        · have : hd.jobId ∈ ids2 := hsub _ (List.elem_iff.mp hc)
          exact Bool.or_eq_true_iff.mpr (Or.inr (List.elem_iff.mpr this))
      simp only [processJobs, stepJob_guard_true detail classifier ids2 hd hg2]
      exact ih ids ids2 hsub hN
    | false =>
      cases hp : titleProfile hd.title with
      | some p =>
        -- first pass accepted hd by title
        have hstep := stepJob_title_some detail classifier ids hd p hg hp
        have h1 : processJobs detail classifier ids (hd :: tl) =
            Rec.mk hd p :: processJobs detail classifier (hd.jobId :: ids) tl := by
          simp only [processJobs, hstep]
        rw [h1] at hN
        have hd2 : hd.jobId ∈ ids2 := hN (Rec.mk hd p) (List.mem_cons_self _ _)
        have hg2 : (hd.jobId == "" || ids2.contains hd.jobId) = true :=
          Bool.or_eq_true_iff.mpr (Or.inr (List.elem_iff.mpr hd2))
        simp only [processJobs, stepJob_guard_true detail classifier ids2 hd hg2]
        refine ih (hd.jobId :: ids) ids2 ?_ ?_
        · intro s hs
          rcases List.mem_cons.mp hs with rfl | hs'
          · exact hd2
          · exact hsub _ hs'
        · intro r hr
          exact hN r (List.mem_cons_of_mem _ hr)
      | none =>
        cases hc : ((detail hd).hasLicense
            || (ignore_companies.map toUpperCase).contains (toUpperCase hd.company)) with
        | true =>
          -- first pass excluded hd; second pass skips or excludes it
          have h1 : processJobs detail classifier ids (hd :: tl) =
              processJobs detail classifier ids tl := by
            simp only [processJobs, stepJob_excluded detail classifier ids hd hg hp hc]
          rw [h1] at hN
          have htl : processJobs detail classifier ids2 tl = [] := ih ids ids2 hsub hN
          cases hg2 : (hd.jobId == "" || ids2.contains hd.jobId) with
          | true =>
            simp only [processJobs, stepJob_guard_true detail classifier ids2 hd hg2]
            exact htl
          | false =>
            simp only [processJobs, stepJob_excluded detail classifier ids2 hd hg2 hp hc]
            exact htl
        | false =>
          -- first pass accepted hd via the classifier
          have hstep := stepJob_classified detail classifier ids hd hg hp hc
          have h1 : processJobs detail classifier ids (hd :: tl) =
              Rec.mk hd (classifier (detail hd).skills (detail hd).desc) ::
                processJobs detail classifier (hd.jobId :: ids) tl := by
            simp only [processJobs, hstep]
          rw [h1] at hN
          have hd2 : hd.jobId ∈ ids2 := hN _ (List.mem_cons_self _ _)
          have hg2 : (hd.jobId == "" || ids2.contains hd.jobId) = true :=
            Bool.or_eq_true_iff.mpr (Or.inr (List.elem_iff.mpr hd2))
          simp only [processJobs, stepJob_guard_true detail classifier ids2 hd hg2]
          refine ih (hd.jobId :: ids) ids2 ?_ ?_
          · intro s hs
            rcases List.mem_cons.mp hs with rfl | hs'
            · exact hd2
            · exact hsub _ hs'
          · intro r hr
            exact hN r (List.mem_cons_of_mem _ hr)

/-! ### Claim theorems -/

/-- C2: merge is idempotent — merging the same incoming card sequence
into the result of merging it into a Store yields the same Store;
no record of the sequence is appended a second time. -/
theorem merge_idempotent (detail : Job → DetailInfo)
    (classifier : List String → String → Profile) (S : List Rec) (X : List Job) :
    runMerge detail classifier (runMerge detail classifier S X) X =
      runMerge detail classifier S X := by
  unfold runMerge
  have habs : processJobs detail classifier
      (idsOf (S ++ processJobs detail classifier (idsOf S) X)) X = [] := by
    apply processJobs_absorbed detail classifier X (idsOf S)
    · intro s hs
      unfold idsOf
      rw [List.map_append]
      exact List.mem_append_left _ hs
    · intro r hr
      unfold idsOf
      rw [List.map_append]
      exact List.mem_append_right _ (List.mem_map.mpr ⟨r, hr, rfl⟩)
  rw [habs, List.append_nil]

/-- C3: identity uniqueness — if the loaded prior Store has
pairwise-distinct ids, the merged Store a run produces has no two
records sharing an id, the running index also covering records added
earlier in the same merge. -/
theorem merged_ids_nodup (detail : Job → DetailInfo)
    (classifier : List String → String → Profile) (S : List Rec) (X : List Job)
    (h : (idsOf S).Nodup) :
    (idsOf (runMerge detail classifier S X)).Nodup := by
  unfold runMerge idsOf
  rw [List.map_append]
  refine List.nodup_append.mpr
    ⟨h, processJobs_ids_nodup detail classifier X (idsOf S), ?_⟩
  intro a haS haN
  obtain ⟨r, hr, hre⟩ := List.mem_map.mp haN
  exact mem_processJobs_not_mem detail classifier X (idsOf S) r hr
    (by rw [hre]; exact haS)

/-- C3 witness: against an empty Store, a crawl yielding ids
`a, b, c` then `c, d` merges to exactly the four ids `a, b, c, d`,
with `c` once. -/
theorem merged_ids_nodup_witness :
    (idsOf ([] : List Rec)).Nodup ∧
    (idsOf (runMerge plainDetail otherClassifier [] [jobA, jobB, jobC, jobC, jobD])).Nodup ∧
    idsOf (runMerge plainDetail otherClassifier [] [jobA, jobB, jobC, jobC, jobD]) =
      ["a", "b", "c", "d"] :=
  ⟨by decide,
   merged_ids_nodup plainDetail otherClassifier [] [jobA, jobB, jobC, jobC, jobD] (by decide),
   by decide⟩

/-- C4: order preservation — the merged Store is the prior records, in
their original order and unmodified, followed by the run's accepted
records; the accepted records keep discovery order (a subsequence of
the extracted cards) and none duplicates a prior id. -/
theorem merge_order (detail : Job → DetailInfo)
    (classifier : List String → String → Profile) (S : List Rec) (X : List Job) :
    runMerge detail classifier S X = S ++ processJobs detail classifier (idsOf S) X ∧
    ((processJobs detail classifier (idsOf S) X).map Rec.job).Sublist X ∧
    ∀ r ∈ processJobs detail classifier (idsOf S) X, r.job.jobId ∉ idsOf S :=
  ⟨rfl, processJobs_map_job_sublist detail classifier X (idsOf S),
    fun r hr => mem_processJobs_not_mem detail classifier X (idsOf S) r hr⟩

/-- C4 witness: a concrete merge appends only the new record after the
untouched prior Store. -/
theorem merge_order_witness :
    runMerge plainDetail otherClassifier [Rec.mk jobA Profile.PHP] [jobA, jobC] =
      [Rec.mk jobA Profile.PHP] ++
        processJobs plainDetail otherClassifier (idsOf [Rec.mk jobA Profile.PHP]) [jobA, jobC] ∧
    runMerge plainDetail otherClassifier [Rec.mk jobA Profile.PHP] [jobA, jobC] =
      [Rec.mk jobA Profile.PHP, Rec.mk jobC Profile.OTHER] :=
  ⟨(merge_order plainDetail otherClassifier [Rec.mk jobA Profile.PHP] [jobA, jobC]).1,
   by decide⟩

/-- C1 counterexample: a record whose detail page shows a license tile
(`hasRestrictedRequirement = true`) but whose title contains the tier-1
keyword `PHP` is classified by title and lands in the merged Store —
the pipeline does not exclude it. -/
theorem license_title_counterexample :
    (licenseDetail jobPHPLicense).hasLicense = true ∧
    runMerge licenseDetail otherClassifier [] [jobPHPLicense] =
      [Rec.mk jobPHPLicense Profile.PHP] := by
  decide

/-- C1 (amended): a record with `hasRestrictedRequirement = true` is
excluded only when the tier-1 title heuristic is inconclusive; in that
case no step accepts it, it never enters the run's accepted records,
and it appears in a merged Store only if it was already in the prior
Store. -/
theorem license_excluded (detail : Job → DetailInfo)
    (classifier : List String → String → Profile) (j : Job)
    (hlic : (detail j).hasLicense = true) (ht : titleProfile j.title = none) :
    (∀ ids p, (stepJob detail classifier ids j).outcome ≠ Outcome.accept p) ∧
    (∀ jobs ids p, Rec.mk j p ∉ processJobs detail classifier ids jobs) ∧
    (∀ S X p, Rec.mk j p ∈ runMerge detail classifier S X → Rec.mk j p ∈ S) := by
  have hno : ∀ ids p, (stepJob detail classifier ids j).outcome ≠ Outcome.accept p := by
    intro ids p hacc
    cases hg : (j.jobId == "" || ids.contains j.jobId) with
    | true =>
      rw [stepJob_guard_true detail classifier ids j hg] at hacc
      exact Outcome.noConfusion hacc
    | false =>
      have hc : ((detail j).hasLicense
          || (ignore_companies.map toUpperCase).contains (toUpperCase j.company)) = true := by
        rw [hlic]
        rfl
      rw [stepJob_excluded detail classifier ids j hg ht hc] at hacc
      exact Outcome.noConfusion hacc
  refine ⟨hno, not_mem_processJobs detail classifier j hno, ?_⟩
  intro S X p hmem
  unfold runMerge at hmem
  rcases List.mem_append.mp hmem with h | h
  · exact h
  · exact absurd h (not_mem_processJobs detail classifier j hno X (idsOf S) p)

/-- C1 witness: a license-bearing record whose title matches no tier-1
keyword is dropped. -/
theorem license_excluded_witness :
    (licenseDetail jobPlain).hasLicense = true ∧
    titleProfile jobPlain.title = none ∧
    Rec.mk jobPlain Profile.OTHER ∉ processJobs licenseDetail otherClassifier [] [jobPlain] :=
  ⟨by decide, by decide,
    (license_excluded licenseDetail otherClassifier jobPlain (by decide)
      (by decide)).2.1 [jobPlain] [] Profile.OTHER⟩

/-- C5: tier-1 title heuristic — a non-skipped record whose uppercased
title contains a category keyword is accepted with the category of the
first matching keyword set in the fixed order REACT/JAVASCRIPT → JS,
then PHP, then WORDPRESS, with no detail fetch and no classifier call,
for every detail-page oracle and classifier (i.e. regardless of skill
tags). -/
theorem title_heuristic (detail : Job → DetailInfo)
    (classifier : List String → String → Profile) (ids : List String) (j : Job)
    (hid : (j.jobId == "" || ids.contains j.jobId) = false)
    (hkw : (strIncludes (toUpperCase j.title) "REACT"
        || strIncludes (toUpperCase j.title) "JAVASCRIPT"
        || strIncludes (toUpperCase j.title) "PHP"
        || strIncludes (toUpperCase j.title) "WORDPRESS") = true) :
    stepJob detail classifier ids j =
      ⟨Outcome.accept
        (if strIncludes (toUpperCase j.title) "REACT"
            || strIncludes (toUpperCase j.title) "JAVASCRIPT" then Profile.JS
         else if strIncludes (toUpperCase j.title) "PHP" then Profile.PHP
         else Profile.WORDPRESS),
        false, false⟩ := by
  have hp : titleProfile j.title =
      some (if strIncludes (toUpperCase j.title) "REACT"
          || strIncludes (toUpperCase j.title) "JAVASCRIPT" then Profile.JS
        else if strIncludes (toUpperCase j.title) "PHP" then Profile.PHP
        else Profile.WORDPRESS) := by
    unfold titleProfile
    cases hRJ : (strIncludes (toUpperCase j.title) "REACT"
        || strIncludes (toUpperCase j.title) "JAVASCRIPT") with
    | true => rfl
    | false =>
      cases hP : strIncludes (toUpperCase j.title) "PHP" with
      | true => rfl
      | false =>
        cases hW : strIncludes (toUpperCase j.title) "WORDPRESS" with
        | true => rfl
        | false =>
          exfalso
          rcases Bool.or_eq_false_iff.mp hRJ with ⟨hR, hJ⟩
          rw [hR, hJ, hP, hW] at hkw
          exact Bool.noConfusion hkw
  rw [stepJob_title_some detail classifier ids j _ hid hp]

/-- C5 witness: `"Senior React Developer"` is accepted as JS with no
detail fetch and no classifier call. -/
theorem title_heuristic_witness :
    (jobReact.jobId == "" || ([] : List String).contains jobReact.jobId) = false ∧
    (strIncludes (toUpperCase jobReact.title) "REACT"
        || strIncludes (toUpperCase jobReact.title) "JAVASCRIPT"
        || strIncludes (toUpperCase jobReact.title) "PHP"
        || strIncludes (toUpperCase jobReact.title) "WORDPRESS") = true ∧
    stepJob licenseDetail otherClassifier [] jobReact =
      ⟨Outcome.accept Profile.JS, false, false⟩ := by
  refine ⟨by decide, by decide, ?_⟩
  have h := title_heuristic licenseDetail otherClassifier [] jobReact (by decide) (by decide)
  rw [h]
  decide

/-- C6: blocklist exclusion is case-insensitive — a record reaching the
exclusion tier (title inconclusive) whose employer matches a blocklist
entry under the uppercase comparison is excluded: no step accepts it,
it is excluded whenever the dedupe guard passes, it never enters the
run's accepted records, and it appears in a merged Store only if it was
already in the prior Store. -/
theorem blocklist_excluded (detail : Job → DetailInfo)
    (classifier : List String → String → Profile) (j : Job)
    (ht : titleProfile j.title = none)
    (hb : (ignore_companies.map toUpperCase).contains (toUpperCase j.company) = true) :
    (∀ ids p, (stepJob detail classifier ids j).outcome ≠ Outcome.accept p) ∧
    (∀ ids, (j.jobId == "" || ids.contains j.jobId) = false →
        (stepJob detail classifier ids j).outcome = Outcome.exclude) ∧
    (∀ jobs ids p, Rec.mk j p ∉ processJobs detail classifier ids jobs) ∧
    (∀ S X p, Rec.mk j p ∈ runMerge detail classifier S X → Rec.mk j p ∈ S) := by
  have hc : ((detail j).hasLicense
      || (ignore_companies.map toUpperCase).contains (toUpperCase j.company)) = true :=
    Bool.or_eq_true_iff.mpr (Or.inr hb)
  have hno : ∀ ids p, (stepJob detail classifier ids j).outcome ≠ Outcome.accept p := by
    intro ids p hacc
    cases hg : (j.jobId == "" || ids.contains j.jobId) with
    | true =>
      rw [stepJob_guard_true detail classifier ids j hg] at hacc
      exact Outcome.noConfusion hacc
    | false =>
      rw [stepJob_excluded detail classifier ids j hg ht hc] at hacc
      exact Outcome.noConfusion hacc
  refine ⟨hno, ?_, not_mem_processJobs detail classifier j hno, ?_⟩
  · intro ids hg
    rw [stepJob_excluded detail classifier ids j hg ht hc]
  · intro S X p hmem
    unfold runMerge at hmem
    rcases List.mem_append.mp hmem with h | h
    · exact h
    · exact absurd h (not_mem_processJobs detail classifier j hno X (idsOf S) p)

/-- C6 witness: employers `"amazon"` and `"AMAZON"` both match blocklist
entry `"Amazon"` and the records are dropped. -/
theorem blocklist_excluded_witness :
    (titleProfile jobAmazonLower.title = none ∧
      (ignore_companies.map toUpperCase).contains (toUpperCase jobAmazonLower.company) = true ∧
      Rec.mk jobAmazonLower Profile.OTHER ∉
        processJobs plainDetail otherClassifier [] [jobAmazonLower]) ∧
    (titleProfile jobAmazonUpper.title = none ∧
      (ignore_companies.map toUpperCase).contains (toUpperCase jobAmazonUpper.company) = true ∧
      Rec.mk jobAmazonUpper Profile.OTHER ∉
        processJobs plainDetail otherClassifier [] [jobAmazonUpper]) :=
  ⟨⟨by decide, by decide,
     (blocklist_excluded plainDetail otherClassifier jobAmazonLower (by decide)
       (by decide)).2.2.1 [jobAmazonLower] [] Profile.OTHER⟩,
   ⟨by decide, by decide,
     (blocklist_excluded plainDetail otherClassifier jobAmazonUpper (by decide)
       (by decide)).2.2.1 [jobAmazonUpper] [] Profile.OTHER⟩⟩

/-- C10: malformed record handling — a listing whose identity field is
empty is skipped with no detail fetch and no classifier call, its
removal from any position of the card list leaves the loop's output on
the other cards unchanged, and it never enters the accepted records. -/
theorem malformed_skipped (detail : Job → DetailInfo)
    (classifier : List String → String → Profile) (j : Job) (hj : j.jobId = "") :
    (∀ ids, stepJob detail classifier ids j = ⟨Outcome.skip, false, false⟩) ∧
    (∀ xs ids ys, processJobs detail classifier ids (xs ++ j :: ys) =
        processJobs detail classifier ids (xs ++ ys)) ∧
    (∀ jobs ids p, Rec.mk j p ∉ processJobs detail classifier ids jobs) := by
  have hstep : ∀ ids, stepJob detail classifier ids j = ⟨Outcome.skip, false, false⟩ := by
    intro ids
    apply stepJob_guard_true
    have hbe : (j.jobId == "") = true := by rw [hj]; rfl
    rw [hbe]
    rfl
  have hno : ∀ ids p, (stepJob detail classifier ids j).outcome ≠ Outcome.accept p := by
    intro ids p hacc
    rw [hstep ids] at hacc
    exact Outcome.noConfusion hacc
  refine ⟨hstep, ?_, not_mem_processJobs detail classifier j hno⟩
  intro xs
  induction xs with
  | nil =>
    intro ids ys
    simp only [List.nil_append, processJobs, hstep ids]
  | cons hd tl ih =>
    intro ids ys
    simp only [List.cons_append, processJobs]
    cases ho : (stepJob detail classifier ids hd).outcome with
    | accept p => exact congrArg (List.cons (Rec.mk hd p)) (ih (hd.jobId :: ids) ys)
    | skip => exact ih ids ys
    | exclude => exact ih ids ys

/-- C10 witness: a card with an empty `jobId` between two well-formed
cards is skipped and does not disturb them. -/
theorem malformed_skipped_witness :
    jobNoId.jobId = "" ∧
    stepJob plainDetail otherClassifier [] jobNoId = ⟨Outcome.skip, false, false⟩ ∧
    processJobs plainDetail otherClassifier [] [jobA, jobNoId, jobC] =
      processJobs plainDetail otherClassifier [] [jobA, jobC] := by
  refine ⟨rfl, (malformed_skipped plainDetail otherClassifier jobNoId rfl).1 [], ?_⟩
  have h := (malformed_skipped plainDetail otherClassifier jobNoId rfl).2.1 [jobA] [] [jobC]
  simpa using h

/-- C7: crawl termination at the next-button check — after extracting a
page the crawler stops with `no-more-pages` when the control is absent,
stops with `last-page` when it is present but disabled, and otherwise
advances; in particular a trace whose third page reports disabled
extracts exactly 3 pages and stops with `last-page`. -/
theorem crawl_check_next :
    (∀ (p : PageDesc) (rest : List PageDesc), p.nextPresent = false →
        crawlPages (p :: rest) = (1, some StopReason.noMorePages)) ∧
    (∀ (p : PageDesc) (rest : List PageDesc), p.nextPresent = true → p.nextDisabled = true →
        crawlPages (p :: rest) = (1, some StopReason.lastPage)) ∧
    (∀ (p : PageDesc) (rest : List PageDesc), p.nextPresent = true → p.nextDisabled = false →
        p.redirectsAuth = false →
        crawlPages (p :: rest) = ((crawlPages rest).1 + 1, (crawlPages rest).2)) ∧
    (∀ p1 p2 p3 : PageDesc, p1.nextPresent = true → p1.nextDisabled = false →
        p1.redirectsAuth = false → p2.nextPresent = true → p2.nextDisabled = false →
        p2.redirectsAuth = false → p3.nextPresent = true → p3.nextDisabled = true →
        crawlPages [p1, p2, p3] = (3, some StopReason.lastPage)) := by
  refine ⟨?_, ?_, ?_, ?_⟩
  · intro p rest h
    simp [crawlPages, h]
  · intro p rest h1 h2
    simp [crawlPages, h1, h2]
  · intro p rest h1 h2 h3
    rcases hcr : crawlPages rest with ⟨n, r⟩
    simp [crawlPages, h1, h2, h3, hcr]
  · intro p1 p2 p3 h1 h2 h3 h4 h5 h6 h7 h8
    simp [crawlPages, h1, h2, h3, h4, h5, h6, h7, h8]

/-- C7 witness: two enabled pages followed by a disabled third page
yield exactly 3 extracted pages and reason `last-page`. -/
theorem crawl_check_next_witness :
    crawlPages [pageOn, pageOn, pageLast] = (3, some StopReason.lastPage) :=
  crawl_check_next.2.2.2 pageOn pageOn pageLast rfl rfl rfl rfl rfl rfl rfl rfl

/-- C8: solver failure is fatal — when the challenge-solver call errors,
the handler exits the process with code 1 before any crawl,
classification or persistence, so the run never completes with a store
and the exit code is nonzero. -/
theorem solver_failure_fatal (detail : Job → DetailInfo)
    (classifier : List String → String → Profile) (e : String)
    (existing : List Rec) (cards : List Job) :
    runWithChallenge detail classifier (SolveResult.err e) existing cards =
      RunResult.aborted 1 ∧
    (∀ store, runWithChallenge detail classifier (SolveResult.err e) existing cards ≠
        RunResult.completed store) ∧
    (1 : Nat) ≠ 0 :=
  ⟨rfl, fun _ h => RunResult.noConfusion h, by decide⟩

/-- C8 witness: a concrete failing solve aborts the run with exit
code 1. -/
theorem solver_failure_fatal_witness :
    runWithChallenge plainDetail otherClassifier (SolveResult.err "ERROR_CAPTCHA_UNSOLVABLE")
        [] [jobA] = RunResult.aborted 1 :=
  (solver_failure_fatal plainDetail otherClassifier "ERROR_CAPTCHA_UNSOLVABLE" [] [jobA]).1

/-! ### Gate lemmas -/

theorem gateStep_keeps_resolved (s : GateState) (e : GateEvent) (r : GateReason)
    (h : s.resolved = some r) : (gateStep s e).resolved = some r := by
  cases e with
  | sigArrive => simpa [gateStep] using h
  | solveDone => simp [gateStep, gateResolve, h]
  | graceTick => cases hsc : s.sawCap <;> simp [gateStep, gateResolve, hsc, h]

theorem foldl_keeps_resolved (l : List GateEvent) (s : GateState) (r : GateReason)
    (h : s.resolved = some r) : (l.foldl gateStep s).resolved = some r := by
  induction l generalizing s with
  | nil => simpa using h
  | cons e tl ih =>
    rw [List.foldl_cons]
    exact ih _ (gateStep_keeps_resolved s e r h)

theorem gateStep_keeps_sawCap (s : GateState) (e : GateEvent) (h : s.sawCap = true) :
    (gateStep s e).sawCap = true := by
  cases e with
  | sigArrive => simp [gateStep]
  | solveDone => cases hr : s.resolved <;> simp [gateStep, gateResolve, hr, h]
  | graceTick => simp [gateStep, h]

theorem foldl_keeps_sawCap (l : List GateEvent) (s : GateState) (h : s.sawCap = true) :
    (l.foldl gateStep s).sawCap = true := by
  induction l generalizing s with
  | nil => simpa using h
  | cons e tl ih =>
    rw [List.foldl_cons]
    exact ih _ (gateStep_keeps_sawCap s e h)

theorem foldl_sawCap_of_mem (l : List GateEvent) (s : GateState)
    (h : GateEvent.sigArrive ∈ l) : (l.foldl gateStep s).sawCap = true := by
  induction l generalizing s with
  | nil => cases h
  | cons e tl ih =>
    rw [List.foldl_cons]
    rcases List.mem_cons.mp h with he | htl
    · cases he
      exact foldl_keeps_sawCap tl _ rfl
    · exact ih _ htl

/-- C9: the ChallengeGate is one-shot — (i) once the gate's promise is
resolved, no later event changes the resolution (first resolution
wins); (ii) with no challenge signal and no solve completion, the grace
check resolves implicit Ready; (iii) a signal is recorded in `sawCap`;
(iv) the grace check is a no-op once a signal was seen, so an early
signal is not ignored; and (v) a pending gate is resolved `solved` by
the solve completion. -/
theorem gate_first_resolution_wins :
    (∀ (pre post : List GateEvent) (r : GateReason), (gateRun pre).resolved = some r →
        (gateRun (pre ++ post)).resolved = some r) ∧
    (∀ events : List GateEvent, GateEvent.sigArrive ∉ events →
        GateEvent.solveDone ∉ events → GateEvent.graceTick ∈ events →
        (gateRun events).resolved = some GateReason.implicitReady) ∧
    (∀ pre : List GateEvent, GateEvent.sigArrive ∈ pre → (gateRun pre).sawCap = true) ∧
    (∀ s : GateState, s.sawCap = true → gateStep s GateEvent.graceTick = s) ∧
    (∀ pre : List GateEvent, (gateRun pre).resolved = none →
        (gateRun (pre ++ [GateEvent.solveDone])).resolved = some GateReason.solved) := by
  refine ⟨?_, ?_, ?_, ?_, ?_⟩
  · intro pre post r h
    unfold gateRun at h ⊢
    rw [List.foldl_append]
    exact foldl_keeps_resolved post _ r h
  · intro events hsig hsolve hgrace
    cases events with
    | nil => cases hgrace
    | cons e tl =>
      cases e with
      | sigArrive => exact absurd (List.mem_cons_self _ _) hsig
      | solveDone => exact absurd (List.mem_cons_self _ _) hsolve
      | graceTick =>
        show (tl.foldl gateStep (gateStep ⟨false, none⟩ GateEvent.graceTick)).resolved = _
        exact foldl_keeps_resolved tl _ _ rfl
  · intro pre h
    exact foldl_sawCap_of_mem pre ⟨false, none⟩ h
  · intro s h
    simp [gateStep, h]
  · intro pre h
    unfold gateRun at h ⊢
    rw [List.foldl_append]
    show (gateStep (pre.foldl gateStep ⟨false, none⟩) GateEvent.solveDone).resolved = _
    simp [gateStep, gateResolve, h]

/-- C9 witness: zero signals → grace resolves implicit Ready; a signal
before the grace check is solved (not ignored); a late signal after the
grace resolution does not double-resolve the gate. -/
theorem gate_first_resolution_wins_witness :
    (gateRun [GateEvent.graceTick]).resolved = some GateReason.implicitReady ∧
    (gateRun ([GateEvent.sigArrive, GateEvent.graceTick] ++ [GateEvent.solveDone])).resolved =
      some GateReason.solved ∧
    (gateRun ([GateEvent.graceTick] ++ [GateEvent.sigArrive, GateEvent.solveDone])).resolved =
      some GateReason.implicitReady :=
  ⟨gate_first_resolution_wins.2.1 [GateEvent.graceTick] (by decide) (by decide) (by decide),
   gate_first_resolution_wins.2.2.2.2 [GateEvent.sigArrive, GateEvent.graceTick] (by decide),
   gate_first_resolution_wins.1 [GateEvent.graceTick] [GateEvent.sigArrive, GateEvent.solveDone]
     GateReason.implicitReady (by decide)⟩
